import Mathlib

/-!
Verification of the matchstick-equation puzzle engine.

The development shallowly embeds the Rust sources: `segment_display.rs`
(`SegmentDisplay`, `delta_to`), `symbol.rs` (`Symbol`, `SymbolFilter`),
`transition.rs` (`Transition`, `TransitionSequence`), `equation.rs`
(`Equation`, `EquationPattern`) and `puzzle.rs` (`Riddle`, `Solution`,
`SolutionWrapper`, `Puzzle`).  External crate functions
(`itertools::multi_cartesian_product`, `evalexpr::eval_int`) are modelled
from the specification, as flagged in their doc comments.
-/

namespace Matchstick

/-- Embeds `SegmentDisplay` from `segment_display.rs`: nine independent
boolean segment flags. -/
structure SegmentDisplay where
  top : Bool
  upper_left : Bool
  upper_right : Bool
  upper_beam : Bool
  middle_beam : Bool
  pipe : Bool
  lower_left : Bool
  lower_right : Bool
  bottom : Bool
deriving DecidableEq, Repr

/-- Embeds `Transition` from `transition.rs`: counts of segments removed
and added. -/
structure Transition where
  remove : Nat
  add : Nat
deriving DecidableEq, Repr

/-- The nine flags of a `SegmentDisplay`, in the order of the
`delta_for_segment_display!` macro invocation. -/
def SegmentDisplay.fields (d : SegmentDisplay) : List Bool :=
  [d.top, d.upper_left, d.upper_right, d.upper_beam, d.middle_beam,
   d.pipe, d.lower_left, d.lower_right, d.bottom]

/-- Embeds `SegmentDisplay::delta_to`: per flag, a segment on in `self`
but off in `target` counts as removed, off in `self` but on in `target`
counts as added. -/
def SegmentDisplay.delta_to (a target : SegmentDisplay) : Transition :=
  { remove := ((a.fields.zip target.fields).filter
      (fun p => p.1 && !p.2)).length,
    add := ((a.fields.zip target.fields).filter
      (fun p => !p.1 && p.2)).length }

/-- Embeds the `Symbol` enum generated by `impl_symbols!` in `symbol.rs`,
variants in declaration order. -/
inductive Symbol where
  | Minus
  | Plus
  | Equal
  | OneVar1
  | OneVar2
  | Two
  | Three
  | FourVar1
  | FourVar2
  | Five
  | Six
  | Seven
  | EightVar1
  | EightVar2
  | Nine
  | Zero
deriving DecidableEq, Repr

/-- Embeds `Symbol::get_all`: all sixteen variants in declaration order. -/
def Symbol.get_all : List Symbol :=
  [.Minus, .Plus, .Equal, .OneVar1, .OneVar2, .Two, .Three, .FourVar1,
   .FourVar2, .Five, .Six, .Seven, .EightVar1, .EightVar2, .Nine, .Zero]

/-- Embeds `Symbol::to_str`: the display string of each variant. -/
def Symbol.to_str : Symbol → String
  | .Minus => "-"
  | .Plus => "+"
  | .Equal => "="
  | .OneVar1 => "1"
  | .OneVar2 => "1"
  | .Two => "2"
  | .Three => "3"
  | .FourVar1 => "4"
  | .FourVar2 => "4"
  | .Five => "5"
  | .Six => "6"
  | .Seven => "7"
  | .EightVar1 => "8"
  | .EightVar2 => "8"
  | .Nine => "9"
  | .Zero => "0"

/-- Embeds `Symbol::to_segment_display`: the per-variant segment table
from the `impl_symbols!` invocation. -/
def Symbol.to_segment_display : Symbol → SegmentDisplay
  | .Minus =>
    { top := false, upper_left := false, upper_right := false,
      upper_beam := false, middle_beam := true, pipe := false,
      lower_left := false, lower_right := false, bottom := false }
  | .Plus =>
    { top := false, upper_left := false, upper_right := false,
      upper_beam := false, middle_beam := true, pipe := true,
      lower_left := false, lower_right := false, bottom := false }
  | .Equal =>
    { top := false, upper_left := false, upper_right := false,
      upper_beam := true, middle_beam := true, pipe := false,
      lower_left := false, lower_right := false, bottom := false }
  | .OneVar1 =>
    { top := false, upper_left := false, upper_right := true,
      upper_beam := false, middle_beam := false, pipe := false,
      lower_left := false, lower_right := true, bottom := false }
  | .OneVar2 =>
    { top := false, upper_left := true, upper_right := false,
      upper_beam := false, middle_beam := false, pipe := false,
      lower_left := true, lower_right := false, bottom := false }
  | .Two =>
    { top := true, upper_left := false, upper_right := true,
      upper_beam := false, middle_beam := true, pipe := false,
      lower_left := true, lower_right := false, bottom := true }
  | .Three =>
    { top := true, upper_left := false, upper_right := true,
      upper_beam := false, middle_beam := true, pipe := false,
      lower_left := false, lower_right := true, bottom := true }
  | .FourVar1 =>
    { top := false, upper_left := true, upper_right := true,
      upper_beam := false, middle_beam := true, pipe := false,
      lower_left := false, lower_right := true, bottom := false }
  | .FourVar2 =>
    { top := false, upper_left := true, upper_right := false,
      upper_beam := false, middle_beam := true, pipe := true,
      lower_left := false, lower_right := false, bottom := false }
  | .Five =>
    { top := true, upper_left := true, upper_right := false,
      upper_beam := false, middle_beam := true, pipe := false,
      lower_left := false, lower_right := true, bottom := true }
  | .Six =>
    { top := true, upper_left := true, upper_right := false,
      upper_beam := false, middle_beam := true, pipe := false,
      lower_left := true, lower_right := true, bottom := true }
  | .Seven =>
    { top := true, upper_left := false, upper_right := true,
      upper_beam := false, middle_beam := false, pipe := false,
      lower_left := false, lower_right := true, bottom := false }
  | .EightVar1 =>
    { top := true, upper_left := true, upper_right := true,
      upper_beam := false, middle_beam := true, pipe := false,
      lower_left := true, lower_right := true, bottom := true }
  | .EightVar2 =>
    { top := true, upper_left := true, upper_right := true,
      upper_beam := true, middle_beam := true, pipe := false,
      lower_left := false, lower_right := false, bottom := false }
  | .Nine =>
    { top := true, upper_left := true, upper_right := true,
      upper_beam := false, middle_beam := true, pipe := false,
      lower_left := false, lower_right := true, bottom := true }
  | .Zero =>
    { top := true, upper_left := true, upper_right := true,
      upper_beam := false, middle_beam := false, pipe := false,
      lower_left := true, lower_right := true, bottom := true }

/-- Embeds `Symbol::apply_transition`: every catalog variant whose delta
from the source symbol structurally equals the given transition, in
catalog order. -/
def Symbol.apply_transition (s : Symbol) (t : Transition) : List Symbol :=
  Symbol.get_all.filter
    (fun c => s.to_segment_display.delta_to c.to_segment_display = t)

/-- Embeds the `SymbolFilter` enum from `symbol.rs`. -/
inductive SymbolFilter where
  | IsAny
  | IsNumber
  | IsOperator
  | List (symbols : List Symbol)
deriving DecidableEq, Repr

/-- The per-variant category from the inline `match` inside
`SymbolFilter::get_corresponding_symbols`. -/
def Symbol.filter_type : Symbol → SymbolFilter
  | .Minus => .IsOperator
  | .Plus => .IsOperator
  | .Equal => .IsOperator
  | .OneVar1 => .IsNumber
  | .OneVar2 => .IsNumber
  | .Two => .IsNumber
  | .Three => .IsNumber
  | .FourVar1 => .IsNumber
  | .FourVar2 => .IsNumber
  | .Five => .IsNumber
  | .Six => .IsNumber
  | .Seven => .IsNumber
  | .EightVar1 => .IsNumber
  | .EightVar2 => .IsNumber
  | .Nine => .IsNumber
  | .Zero => .IsNumber

/-- A list of symbols; this spelling stays unambiguous inside the
`SymbolFilter` namespace, where `List` refers to the constructor. -/
abbrev SymbolList := List Symbol

/-- Embeds `SymbolFilter::get_corresponding_symbols`: all symbols for
`IsAny`, the explicit list for `List`, and the catalog symbols whose
category matches for `IsNumber` / `IsOperator`. -/
def SymbolFilter.get_corresponding_symbols : SymbolFilter → SymbolList
  | SymbolFilter.IsAny => Symbol.get_all
  | SymbolFilter.List symbols => symbols
  | SymbolFilter.IsNumber =>
      Symbol.get_all.filter (fun s => s.filter_type = SymbolFilter.IsNumber)
  | SymbolFilter.IsOperator =>
      Symbol.get_all.filter (fun s => s.filter_type = SymbolFilter.IsOperator)

/-- Embeds `TransitionSequence` from `transition.rs`. -/
structure TransitionSequence where
  transitions : List Transition
deriving DecidableEq, Repr

/-- Embeds `Transition::remove_one` (as a pure update). -/
def Transition.remove_one (t : Transition) : Transition :=
  { t with remove := t.remove + 1 }

/-- Embeds `Transition::add_one` (as a pure update). -/
def Transition.add_one (t : Transition) : Transition :=
  { t with add := t.add + 1 }

/-- In-place update of one list element, modelling the Rust index
assignment `transitions[i]` on a cloned vector. -/
def listModify (f : α → α) : Nat → List α → List α
  | _, [] => []
  | 0, a :: as => f a :: as
  | n + 1, a :: as => a :: listModify f n as

/-- Embeds `TransitionSequence::with_n_default_transitions`. -/
def TransitionSequence.with_n_default_transitions (n : Nat) : TransitionSequence :=
  ⟨List.replicate n { remove := 0, add := 0 }⟩

/-- Embeds `TransitionSequence::get_number_of_transitions`. -/
def TransitionSequence.get_number_of_transitions (ts : TransitionSequence) : Nat :=
  ts.transitions.length

/-- Embeds `TransitionSequence::move_one`: for every ordered pair of a
source index and a target index, a clone with `remove` incremented at the
source and `add` incremented at the target. -/
def TransitionSequence.move_one (ts : TransitionSequence) : List TransitionSequence :=
  (List.range ts.get_number_of_transitions).flatMap (fun source_index =>
    (List.range ts.get_number_of_transitions).map (fun target_index =>
      ⟨listModify Transition.add_one target_index
        (listModify Transition.remove_one source_index ts.transitions)⟩))

/-- Embeds `TransitionSequence::move_n_recursive`. -/
def TransitionSequence.move_n_recursive :
    Nat → List TransitionSequence → List TransitionSequence
  | 0, transition_sequences => transition_sequences
  | number_movements + 1, transition_sequences =>
      TransitionSequence.move_n_recursive number_movements
        (transition_sequences.flatMap TransitionSequence.move_one)

/-- Embeds `TransitionSequence::move_n`. -/
def TransitionSequence.move_n (number_movements number_elements : Nat) :
    List TransitionSequence :=
  TransitionSequence.move_n_recursive number_movements
    [TransitionSequence.with_n_default_transitions number_elements]

/-- Modelled from the spec: `itertools::multi_cartesian_product` (the
crate is not part of the repository sources).  Per §4.4, forms the
Cartesian product across the position lists in order, leftmost position
varying slowest; the product over zero lists is the single empty
combination. -/
def multiCartesianProduct : List (List α) → List (List α)
  | [] => [[]]
  | l :: ls => l.flatMap (fun x => (multiCartesianProduct ls).map (fun c => x :: c))

/-- Embeds `Equation` from `equation.rs`: an ordered list of symbols. -/
structure Equation where
  symbols : List Symbol
deriving DecidableEq, Repr

/-- Embeds `Equation::new_from_symbols`. -/
def Equation.new_from_symbols (symbols : List Symbol) : Equation :=
  ⟨symbols⟩

/-- Embeds `Equation::to_plain_text`: concatenation of the display
strings of the symbols in order. -/
def Equation.to_plain_text (e : Equation) : String :=
  e.symbols.foldl (fun acc s => acc ++ s.to_str) ""

/-- Embeds `Equation::apply_transition_sequence`: error on a length
mismatch, otherwise the Cartesian product of the per-position reachable
symbol lists, each combination wrapped as an `Equation`. -/
def Equation.apply_transition_sequence (e : Equation)
    (transition_sequence : TransitionSequence) : Except Unit (List Equation) :=
  if e.symbols.length ≠ transition_sequence.get_number_of_transitions then
    .error ()
  else
    let transitioned_symbols :=
      (e.symbols.zip transition_sequence.transitions).map
        (fun p => p.1.apply_transition p.2)
    .ok ((multiCartesianProduct transitioned_symbols).map Equation.mk)

/-- Embeds `Equation::move_n_matchsticks`: apply every generated
transition sequence and concatenate all successful results, skipping
errored ones. -/
def Equation.move_n_matchsticks (e : Equation) (number_matchsticks : Nat) :
    List Equation :=
  (TransitionSequence.move_n number_matchsticks e.symbols.length).flatMap
    (fun transition_sequence =>
      match e.apply_transition_sequence transition_sequence with
      | .ok transitioned_equations => transitioned_equations
      | .error _ => [])

/-- Helper for the `eval_int` model: consume a maximal run of decimal
digits, accumulating left to right onto `acc`. -/
def parseDigits : List Char → Nat → Nat × List Char
  | [], acc => (acc, [])
  | c :: cs, acc =>
      if c.isDigit then parseDigits cs (acc * 10 + (c.toNat - 48))
      else (acc, c :: cs)

/-- Helper for the `eval_int` model: parse a nonempty run of decimal
digits as a natural number. -/
def parseNumber : List Char → Option (Nat × List Char)
  | [] => none
  | c :: cs =>
      if c.isDigit then some (parseDigits cs (c.toNat - 48)) else none

/-- Helper for the `eval_int` model: parse one term, an optionally
signed integer literal. -/
def parseTerm : List Char → Option (Int × List Char)
  | '-' :: cs => (parseNumber cs).map (fun p => (-(p.1 : Int), p.2))
  | '+' :: cs => (parseNumber cs).map (fun p => ((p.1 : Int), p.2))
  | cs => (parseNumber cs).map (fun p => ((p.1 : Int), p.2))

/-- Helper for the `eval_int` model: fold the remaining `+`/`-`
applications left to right; the fuel bounds recursion and never runs out
when it starts at the length of the remaining input. -/
def evalOps : Nat → Int → List Char → Option Int
  | _, acc, [] => some acc
  | 0, _, _ :: _ => none
  | fuel + 1, acc, '+' :: cs =>
      match parseTerm cs with
      | some (v, rest) => evalOps fuel (acc + v) rest
      | none => none
  | fuel + 1, acc, '-' :: cs =>
      match parseTerm cs with
      | some (v, rest) => evalOps fuel (acc - v) rest
      | none => none
  | _ + 1, _, _ :: _ => none

/-- Modelled from the spec: `evalexpr::eval_int` (the crate is not part
of the repository sources).  Per §4.5, evaluates a standard integer
arithmetic expression over unary/binary `+` and `-`, left to right, with
no other operators; anything else fails. -/
def eval_int (s : String) : Option Int :=
  match parseTerm s.data with
  | some (v, rest) => evalOps rest.length v rest
  | none => none

/-- Structural equality on validation results is decidable; this makes
the `Ok`-test of `Riddle::solve` computable in proofs. -/
instance : DecidableEq (Except Unit Unit) := fun a b =>
  match a, b with
  | .ok (), .ok () => isTrue rfl
  | .error (), .error () => isTrue rfl
  | .ok (), .error () => isFalse (fun h => Except.noConfusion h)
  | .error (), .ok () => isFalse (fun h => Except.noConfusion h)

/-- Helper for `splitOnEq`: walk the characters, accumulating the
current piece in reverse. -/
def splitOnEqAux : List Char → List Char → List String
  | [], acc => [String.mk acc.reverse]
  | c :: cs, acc =>
      if c = '=' then String.mk acc.reverse :: splitOnEqAux cs []
      else splitOnEqAux cs (c :: acc)

/-- Models Rust `str::split("=")` as used by
`Equation::mathematically_validate`: the pieces between occurrences of
`=`, empty pieces included, one more piece than separators. -/
def splitOnEq (s : String) : List String :=
  splitOnEqAux s.data []

/-- Embeds `Equation::mathematically_validate`: split the plain text on
`=`, require at least two pieces, a first piece evaluating to an
integer, and every piece evaluating to that same integer. -/
def Equation.mathematically_validate (e : Equation) : Except Unit Unit :=
  let equation_expressions := (splitOnEq e.to_plain_text).map eval_int
  if equation_expressions.length < 2 then .error ()
  else
    match equation_expressions.head? with
    | some (some value_first_expression) =>
        if equation_expressions.all (fun r => r = some value_first_expression)
        then .ok () else .error ()
    | _ => .error ()

/-- Embeds `EquationPattern` from `equation.rs`. -/
structure EquationPattern where
  symbol_filters : List SymbolFilter
deriving DecidableEq, Repr

/-- Embeds `EquationPattern::new_from_symbol_filters`. -/
def EquationPattern.new_from_symbol_filters
    (symbol_filters : List SymbolFilter) : EquationPattern :=
  ⟨symbol_filters⟩

/-- Embeds `EquationPattern::derive_concrete_equations`: Cartesian
product of the per-position allowed symbols, in position order. -/
def EquationPattern.derive_concrete_equations (p : EquationPattern) :
    List Equation :=
  (multiCartesianProduct
      (p.symbol_filters.map SymbolFilter.get_corresponding_symbols)).map
    Equation.mk

/-- Embeds `Equation::fulfills_abstract_equation`: position-wise
membership test over the zipped overlap of equation and pattern. -/
def Equation.fulfills_abstract_equation (e : Equation)
    (abstract_equation : EquationPattern) : Bool :=
  (e.symbols.zip abstract_equation.symbol_filters).all
    (fun p => (p.2.get_corresponding_symbols).contains p.1)

/-- Embeds `Riddle` from `puzzle.rs`. -/
structure Riddle where
  riddle_equation : Equation
  number_matchstick_movements : Nat
deriving DecidableEq, Repr

/-- Embeds `Riddle::new`. -/
def Riddle.new (equation : Equation) (number_matchstick_movements : Nat) :
    Riddle :=
  ⟨equation, number_matchstick_movements⟩

/-- Embeds `Solution` from `puzzle.rs`. -/
structure Solution where
  solution_equations : List Equation
deriving DecidableEq, Repr

/-- Embeds the `SolutionWrapper` enum from `puzzle.rs`. -/
inductive SolutionWrapper where
  | NotYetSet
  | ProgrammaticallySet (solution : Solution)
  | ManuallySet (solution : Solution)
deriving DecidableEq, Repr

/-- Embeds `SolutionWrapper::new_manually_set_solution`. -/
def SolutionWrapper.new_manually_set_solution
    (solution_equations : List Equation) : SolutionWrapper :=
  .ManuallySet ⟨solution_equations⟩

/-- Embeds `SolutionWrapper::new_programmatically_set_solution`. -/
def SolutionWrapper.new_programmatically_set_solution
    (solution_equations : List Equation) : SolutionWrapper :=
  .ProgrammaticallySet ⟨solution_equations⟩

/-- Embeds `SolutionWrapper::get_inner_reference`. -/
def SolutionWrapper.get_inner_reference :
    SolutionWrapper → Except Unit Solution
  | .NotYetSet => .error ()
  | .ProgrammaticallySet solution => .ok solution
  | .ManuallySet solution => .ok solution

/-- `true` exactly when `mathematically_validate` returns `Ok`, the test
used by `Riddle::solve`'s `filter_map`. -/
def Equation.validates (e : Equation) : Bool :=
  match e.mathematically_validate with
  | .ok _ => true
  | .error _ => false

/-- Embeds `Riddle::solve`: keep the mathematically valid equations
among all transformed ones, wrapped as a programmatically set
solution. -/
def Riddle.solve (r : Riddle) : SolutionWrapper :=
  let transformed_equations :=
    r.riddle_equation.move_n_matchsticks r.number_matchstick_movements
  let solution_equations := transformed_equations.filter Equation.validates
  SolutionWrapper.new_programmatically_set_solution solution_equations

/-- Embeds `Puzzle` from `puzzle.rs` (field name kept as in source). -/
structure Puzzle where
  riddle : Riddle
  wrappped_solution : SolutionWrapper
deriving DecidableEq, Repr

/-- Embeds `Puzzle::new_from_riddle`. -/
def Puzzle.new_from_riddle (riddle : Riddle) : Puzzle :=
  ⟨riddle, .NotYetSet⟩

/-- Embeds `Puzzle::search_and_set_solution` as a pure step: the updated
puzzle together with the returned solution count.  The `NotYetSet`
branch panics in the source and is unreachable because `solve` always
returns `ProgrammaticallySet`; it is mapped to count `0` here. -/
def Puzzle.search_and_set_solution (p : Puzzle) : Puzzle × Nat :=
  let wrapped := p.riddle.solve
  ({ p with wrappped_solution := wrapped },
    match wrapped with
    | .NotYetSet => 0
    | .ProgrammaticallySet solution => solution.solution_equations.length
    | .ManuallySet solution => solution.solution_equations.length)

/-- Embeds `Puzzle::manually_set_solution` as a pure step: the stored
wrapper is replaced by the given one verbatim. -/
def Puzzle.manually_set_solution (p : Puzzle)
    (wrapped_solution : SolutionWrapper) : Puzzle :=
  { p with wrappped_solution := wrapped_solution }

/-- The public operations that change a puzzle's solution state, for
stating temporal properties about operation sequences. -/
inductive PuzzleOp where
  | search
  | manual (wrapped_solution : SolutionWrapper)
deriving DecidableEq, Repr

/-- Apply one puzzle operation. -/
def Puzzle.apply_op (p : Puzzle) : PuzzleOp → Puzzle
  | .search => (p.search_and_set_solution).1
  | .manual w => p.manually_set_solution w

/-- Apply a sequence of puzzle operations from left to right. -/
def Puzzle.apply_ops (p : Puzzle) (ops : List PuzzleOp) : Puzzle :=
  ops.foldl Puzzle.apply_op p

/-- Total of the per-position removed counts of a plan, the quantity the
spec's MovementPlan invariant speaks about. -/
def TransitionSequence.total_removed (ts : TransitionSequence) : Nat :=
  (ts.transitions.map Transition.remove).sum

/-- Total of the per-position added counts of a plan. -/
def TransitionSequence.total_added (ts : TransitionSequence) : Nat :=
  (ts.transitions.map Transition.add).sum

theorem listModify_length (f : α → α) (i : Nat) (l : List α) :
    (listModify f i l).length = l.length := by
  induction l generalizing i with
  | nil => cases i <;> rfl
  | cons a as ih =>
    cases i with
    | zero => rfl
    | succ n => simp [listModify, ih]

theorem sum_map_listModify (g : α → Nat) (f : α → α) (k : Nat)
    (hf : ∀ a, g (f a) = g a + k) (i : Nat) (l : List α) (hi : i < l.length) :
    ((listModify f i l).map g).sum = (l.map g).sum + k := by
  induction l generalizing i with
  | nil => simp at hi
  | cons a as ih =>
    cases i with
    | zero =>
      simp only [listModify, List.map_cons, List.sum_cons, hf]
      omega
    | succ n =>
      simp only [listModify, List.map_cons, List.sum_cons]
      have hn : n < as.length := by simpa using hi
      rw [ih n hn]
      omega

theorem mem_move_one (ts ts' : TransitionSequence) :
    ts' ∈ ts.move_one ↔
      ∃ si ti, si < ts.get_number_of_transitions ∧
        ti < ts.get_number_of_transitions ∧
        ts' = ⟨listModify Transition.add_one ti
                 (listModify Transition.remove_one si ts.transitions)⟩ := by
  simp only [TransitionSequence.move_one, List.mem_flatMap, List.mem_map,
    List.mem_range]
  exact ⟨fun ⟨si, hsi, ti, hti, h⟩ => ⟨si, ti, hsi, hti, h.symm⟩,
    fun ⟨si, ti, hsi, hti, h⟩ => ⟨si, hsi, ti, hti, h.symm⟩⟩

theorem length_move_one (ts : TransitionSequence) :
    ts.move_one.length = ts.get_number_of_transitions ^ 2 := by
  simp [TransitionSequence.move_one, List.length_flatMap, Function.comp_def,
    List.map_const, List.sum_replicate, pow_two]

theorem move_one_mem_spec (ts ts' : TransitionSequence)
    (h : ts' ∈ ts.move_one) :
    ts'.get_number_of_transitions = ts.get_number_of_transitions ∧
    ts'.total_removed = ts.total_removed + 1 ∧
    ts'.total_added = ts.total_added + 1 := by
  obtain ⟨si, ti, hsi, hti, rfl⟩ := (mem_move_one ts ts').1 h
  refine ⟨?_, ?_, ?_⟩
  · simp [TransitionSequence.get_number_of_transitions, listModify_length]
  · unfold TransitionSequence.total_removed
    rw [sum_map_listModify Transition.remove Transition.add_one 0
        (fun a => by simp [Transition.add_one]) ti _
        (by rw [listModify_length]; exact hti),
      sum_map_listModify Transition.remove Transition.remove_one 1
        (fun a => by simp [Transition.remove_one]) si _ hsi]
  · unfold TransitionSequence.total_added
    rw [sum_map_listModify Transition.add Transition.add_one 1
        (fun a => by simp [Transition.add_one]) ti _
        (by rw [listModify_length]; exact hti),
      sum_map_listModify Transition.add Transition.remove_one 0
        (fun a => by simp [Transition.remove_one]) si _ hsi]

theorem length_flatMap_move_one (n : Nat) (seqs : List TransitionSequence)
    (h : ∀ ts ∈ seqs, ts.get_number_of_transitions = n) :
    (seqs.flatMap TransitionSequence.move_one).length = seqs.length * n ^ 2 := by
  induction seqs with
  | nil => simp
  | cons ts rest ih =>
    simp only [List.flatMap_cons, List.length_append, List.length_cons]
    rw [length_move_one, h ts (List.mem_cons_self ts rest),
      ih (fun t ht => h t (List.mem_cons_of_mem ts ht))]
    ring

theorem move_n_recursive_spec (n : Nat) (m : Nat) :
    ∀ seqs : List TransitionSequence,
      (∀ ts ∈ seqs, ts.get_number_of_transitions = n) →
      (TransitionSequence.move_n_recursive m seqs).length
          = seqs.length * (n ^ 2) ^ m ∧
      ∀ ts' ∈ TransitionSequence.move_n_recursive m seqs,
        ts'.get_number_of_transitions = n ∧
        ∃ ts ∈ seqs, ts'.total_removed = ts.total_removed + m ∧
          ts'.total_added = ts.total_added + m := by
  induction m with
  | zero =>
    intro seqs h
    refine ⟨by simp [TransitionSequence.move_n_recursive], ?_⟩
    intro ts' hts'
    exact ⟨h ts' hts', ts', hts', by omega, by omega⟩
  | succ m ih =>
    intro seqs h
    have hnext : ∀ ts ∈ seqs.flatMap TransitionSequence.move_one,
        ts.get_number_of_transitions = n := by
      intro ts hts
      obtain ⟨t0, ht0, hmem⟩ := List.mem_flatMap.1 hts
      rw [(move_one_mem_spec t0 ts hmem).1, h t0 ht0]
    obtain ⟨hlen, hmem⟩ := ih (seqs.flatMap TransitionSequence.move_one) hnext
    constructor
    · show (TransitionSequence.move_n_recursive m
        (seqs.flatMap TransitionSequence.move_one)).length = _
      rw [hlen, length_flatMap_move_one n seqs h, pow_succ]
      ring
    · intro ts' hts'
      obtain ⟨hn, tmid, htmid, hrem, hadd⟩ := hmem ts' hts'
      obtain ⟨ts, hts, hone⟩ := List.mem_flatMap.1 htmid
      obtain ⟨-, hrem1, hadd1⟩ := move_one_mem_spec ts tmid hone
      exact ⟨hn, ts, hts, by omega, by omega⟩

theorem with_n_default_spec (n : Nat) :
    (TransitionSequence.with_n_default_transitions n).get_number_of_transitions = n ∧
    (TransitionSequence.with_n_default_transitions n).total_removed = 0 ∧
    (TransitionSequence.with_n_default_transitions n).total_added = 0 := by
  refine ⟨?_, ?_, ?_⟩ <;>
    simp [TransitionSequence.with_n_default_transitions,
      TransitionSequence.get_number_of_transitions,
      TransitionSequence.total_removed, TransitionSequence.total_added,
      List.map_replicate, List.sum_replicate]

theorem move_n_length (m n : Nat) :
    (TransitionSequence.move_n m n).length = (n ^ 2) ^ m := by
  have h := (move_n_recursive_spec n m
    [TransitionSequence.with_n_default_transitions n]
    (by intro ts hts
        rw [List.mem_singleton] at hts
        rw [hts]
        exact (with_n_default_spec n).1)).1
  simpa [TransitionSequence.move_n] using h

theorem move_n_mem_spec (m n : Nat) (ts : TransitionSequence)
    (h : ts ∈ TransitionSequence.move_n m n) :
    ts.get_number_of_transitions = n ∧
    ts.total_removed = m ∧ ts.total_added = m := by
  have hspec := (move_n_recursive_spec n m
    [TransitionSequence.with_n_default_transitions n]
    (by intro t ht
        rw [List.mem_singleton] at ht
        rw [ht]
        exact (with_n_default_spec n).1)).2 ts h
  obtain ⟨hn, t0, ht0, hrem, hadd⟩ := hspec
  rw [List.mem_singleton] at ht0
  subst ht0
  obtain ⟨-, h2, h3⟩ := with_n_default_spec n
  exact ⟨hn, by omega, by omega⟩

theorem multiCartesianProduct_singletons (l : List α) :
    multiCartesianProduct (l.map fun x => [x]) = [l] := by
  induction l with
  | nil => rfl
  | cons a as ih => simp [multiCartesianProduct, ih]

theorem multiCartesianProduct_eq_nil_of_mem (ls : List (List α))
    (h : [] ∈ ls) : multiCartesianProduct ls = [] := by
  induction ls with
  | nil => simp at h
  | cons l rest ih =>
    rcases List.mem_cons.1 h with h | h
    · rw [← h]
      simp [multiCartesianProduct]
    · simp [multiCartesianProduct, ih h]

theorem map_zip_replicate (g : α → β → γ) (c : β) (l : List α) :
    ((l.zip (List.replicate l.length c)).map fun p => g p.1 p.2)
      = l.map fun x => g x c := by
  induction l with
  | nil => rfl
  | cons a as ih => simp [List.replicate_succ, ih]

theorem apply_transition_zero (s : Symbol) :
    s.apply_transition { remove := 0, add := 0 } = [s] := by
  cases s <;> rfl

/-- C1: for every Equation `e`, `move_n_matchsticks(e, 0)` returns
exactly the one-element list containing `e` itself. -/
theorem move_n_matchsticks_zero (e : Equation) :
    e.move_n_matchsticks 0 = [e] := by
  show ([TransitionSequence.with_n_default_transitions e.symbols.length].flatMap
    (fun ts => match e.apply_transition_sequence ts with
      | .ok transitioned_equations => transitioned_equations
      | .error _ => [])) = [e]
  rw [List.flatMap_cons, List.flatMap_nil, List.append_nil]
  have happly : e.apply_transition_sequence
      (TransitionSequence.with_n_default_transitions e.symbols.length)
      = .ok [e] := by
    unfold Equation.apply_transition_sequence
    rw [if_neg (by simp [(with_n_default_spec e.symbols.length).1])]
    show Except.ok ((multiCartesianProduct
      ((e.symbols.zip (List.replicate e.symbols.length
        { remove := 0, add := 0 })).map
        (fun p => p.1.apply_transition p.2))).map Equation.mk) = _
    rw [map_zip_replicate Symbol.apply_transition { remove := 0, add := 0 }
      e.symbols]
    rw [List.map_congr_left (fun s _ => apply_transition_zero s)]
    rw [multiCartesianProduct_singletons]
    rfl
  rw [happly]

/-- C8: for all segment patterns `a` and `b`, `a.delta_to b` and
`b.delta_to a` have their removed and added counts swapped. -/
theorem delta_to_swap (a b : SegmentDisplay) :
    (a.delta_to b).remove = (b.delta_to a).add ∧
    (a.delta_to b).add = (b.delta_to a).remove := by
  have key : ∀ l1 l2 : List Bool,
      ((List.zipWith Prod.mk l1 l2).filter fun p => p.1 && !p.2).length =
      ((List.zipWith Prod.mk l2 l1).filter fun p => !p.1 && p.2).length := by
    intro l1
    induction l1 with
    | nil => intro l2; simp
    | cons x xs ih =>
      intro l2
      cases l2 with
      | nil => simp
      | cons y ys => cases x <;> cases y <;> simp [List.filter, ih ys]
  exact ⟨key a.fields b.fields, (key b.fields a.fields).symm⟩

/-- C4: `move_n(m, n)` returns exactly `(n^2)^m` plans, each with `n`
positions and with total removed and total added counts both equal to
`m`; for `m = 0` it is the single all-zero plan. -/
theorem move_n_plan_spec (m n : Nat) :
    (TransitionSequence.move_n m n).length = (n ^ 2) ^ m ∧
    (∀ ts ∈ TransitionSequence.move_n m n,
      ts.get_number_of_transitions = n ∧
      ts.total_removed = m ∧ ts.total_added = m) ∧
    TransitionSequence.move_n 0 n
      = [TransitionSequence.with_n_default_transitions n] := by
  exact ⟨move_n_length m n, fun ts hts => move_n_mem_spec m n ts hts, rfl⟩

/-- Closed witness for C4 at `m = 1`, `n = 2`. -/
theorem move_n_plan_spec_witness :
    (TransitionSequence.move_n 1 2).length = (2 ^ 2) ^ 1 ∧
    (TransitionSequence.mk
        [{ remove := 1, add := 0 }, { remove := 0, add := 1 }]).get_number_of_transitions = 2 ∧
    (TransitionSequence.mk
        [{ remove := 1, add := 0 }, { remove := 0, add := 1 }]).total_removed = 1 := by
  refine ⟨(move_n_plan_spec 1 2).1, ?_, ?_⟩
  · exact ((move_n_plan_spec 1 2).2.1
      ⟨[{ remove := 1, add := 0 }, { remove := 0, add := 1 }]⟩ (by decide)).1
  · exact ((move_n_plan_spec 1 2).2.1
      ⟨[{ remove := 1, add := 0 }, { remove := 0, add := 1 }]⟩ (by decide)).2.1

/-- C5: `apply_transition_sequence` errors exactly on a position-count
mismatch; with matching shapes it returns the Cartesian product of the
per-position reachable-symbol lists in position order, and an empty
reachable set at some position gives the empty list, not an error. -/
theorem apply_transition_sequence_spec (e : Equation)
    (ts : TransitionSequence) :
    (e.apply_transition_sequence ts = .error ()
      ↔ e.symbols.length ≠ ts.get_number_of_transitions) ∧
    (e.symbols.length = ts.get_number_of_transitions →
      e.apply_transition_sequence ts
        = .ok ((multiCartesianProduct
            ((e.symbols.zip ts.transitions).map
              (fun p => p.1.apply_transition p.2))).map Equation.mk)) ∧
    (e.symbols.length = ts.get_number_of_transitions →
      (∃ p ∈ e.symbols.zip ts.transitions, p.1.apply_transition p.2 = []) →
      e.apply_transition_sequence ts = .ok []) := by
  unfold Equation.apply_transition_sequence
  by_cases h : e.symbols.length = ts.get_number_of_transitions
  · rw [if_neg (by omega)]
    refine ⟨by simp [h], fun _ => rfl, ?_⟩
    intro _ hex
    obtain ⟨p, hp, hnil⟩ := hex
    have hmem : [] ∈ (e.symbols.zip ts.transitions).map
        (fun p => p.1.apply_transition p.2) :=
      List.mem_map.2 ⟨p, hp, hnil⟩
    show Except.ok ((multiCartesianProduct
      ((e.symbols.zip ts.transitions).map
        (fun p => p.1.apply_transition p.2))).map Equation.mk) = Except.ok []
    rw [multiCartesianProduct_eq_nil_of_mem _ hmem]
    rfl
  · rw [if_pos (by omega)]
    exact ⟨by simp [h], fun hc => absurd hc h, fun hc => absurd hc h⟩

/-- Closed witness for C5: a one-symbol equation against a two-position
plan errors, and against a matching plan with an unreachable edit gives
the empty list. -/
theorem apply_transition_sequence_spec_witness :
    Equation.apply_transition_sequence ⟨[Symbol.Seven]⟩
        ⟨[{ remove := 0, add := 0 }, { remove := 0, add := 0 }]⟩
      = .error () ∧
    Equation.apply_transition_sequence ⟨[Symbol.Seven]⟩
        ⟨[{ remove := 9, add := 9 }]⟩ = .ok [] := by
  constructor
  · exact (apply_transition_sequence_spec ⟨[Symbol.Seven]⟩
      ⟨[{ remove := 0, add := 0 }, { remove := 0, add := 0 }]⟩).1.mpr
      (by decide)
  · exact (apply_transition_sequence_spec ⟨[Symbol.Seven]⟩
      ⟨[{ remove := 9, add := 9 }]⟩).2.2 (by decide)
      ⟨(Symbol.Seven, { remove := 9, add := 9 }), by decide, by decide⟩

/-- C10: every transition sequence generated inside
`move_n_matchsticks(e, m)` has exactly as many transitions as `e` has
symbols, so `apply_transition_sequence` never takes its error branch
there and no generated plan is discarded for shape reasons. -/
theorem move_n_matchsticks_no_shape_mismatch (e : Equation) (m : Nat) :
    ∀ ts ∈ TransitionSequence.move_n m e.symbols.length,
      ts.get_number_of_transitions = e.symbols.length ∧
      ∃ eqs, e.apply_transition_sequence ts = .ok eqs := by
  intro ts hts
  have hlen := (move_n_mem_spec m e.symbols.length ts hts).1
  refine ⟨hlen, ?_⟩
  unfold Equation.apply_transition_sequence
  rw [if_neg (by omega)]
  exact ⟨_, rfl⟩

/-- Closed witness for C10 on a two-symbol equation with budget 1. -/
theorem move_n_matchsticks_no_shape_mismatch_witness :
    (TransitionSequence.mk
        [{ remove := 1, add := 1 }, { remove := 0, add := 0 }]).get_number_of_transitions
      = (Equation.mk [Symbol.Seven, Symbol.Equal]).symbols.length ∧
    ∃ eqs, (Equation.mk [Symbol.Seven, Symbol.Equal]).apply_transition_sequence
        ⟨[{ remove := 1, add := 1 }, { remove := 0, add := 0 }]⟩ = .ok eqs :=
  move_n_matchsticks_no_shape_mismatch (Equation.mk [Symbol.Seven, Symbol.Equal]) 1
    ⟨[{ remove := 1, add := 1 }, { remove := 0, add := 0 }]⟩ (by decide)

theorem validate_check_iff (l : List (Option Int)) :
    (if l.length < 2 then (Except.error () : Except Unit Unit)
     else
       match l.head? with
       | some (some v) =>
           if l.all (fun r => r = some v) then .ok () else .error ()
       | _ => .error ()) = .ok ()
    ↔ (2 ≤ l.length ∧ ∃ v : Int, ∀ r ∈ l, r = some v) := by
  by_cases hlen : l.length < 2
  · rw [if_pos hlen]
    constructor
    · intro h
      exact absurd h (by simp)
    · intro h
      omega
  · rw [if_neg hlen]
    cases l with
    | nil => simp at hlen
    | cons r0 rest =>
      rw [List.head?_cons]
      cases r0 with
      | none =>
        constructor
        · intro h
          exact absurd h (by simp)
        · intro h
          obtain ⟨-, v, hall⟩ := h
          have := hall none (List.mem_cons_self none rest)
          simp at this
      | some v0 =>
        show (if (some v0 :: rest : List (Option Int)).all
            (fun r => r = some v0) then (Except.ok () : Except Unit Unit)
          else Except.error ()) = Except.ok () ↔ _
        by_cases hall : (some v0 :: rest : List (Option Int)).all
            (fun r => r = some v0)
        · rw [if_pos hall]
          constructor
          · intro _
            refine ⟨by omega, v0, ?_⟩
            intro r hr
            have := List.all_eq_true.1 hall r hr
            simpa using this
          · intro _
            rfl
        · rw [if_neg hall]
          constructor
          · intro h
            exact absurd h (by simp)
          · intro h
            obtain ⟨-, v, hallv⟩ := h
            have h0 := hallv (some v0) (List.mem_cons_self (some v0) rest)
            have hv : v = v0 := by
              have := Option.some_inj.1 h0
              omega
            refine absurd ?_ hall
            rw [List.all_eq_true]
            intro r hr
            have := hallv r hr
            simp [this, hv]

/-- C6: `mathematically_validate` succeeds iff splitting the plain text
on `=` gives at least two pieces and every piece evaluates to one common
integer; in particular `2=2=2` validates and the empty middle piece of
`3+8==2` does not. -/
theorem mathematically_validate_spec :
    (∀ e : Equation,
      e.mathematically_validate = .ok () ↔
        (2 ≤ (splitOnEq e.to_plain_text).length ∧
         ∃ v : Int, ∀ piece ∈ splitOnEq e.to_plain_text,
           eval_int piece = some v)) ∧
    (Equation.new_from_symbols
        [Symbol.Two, Symbol.Equal, Symbol.Two, Symbol.Equal,
         Symbol.Two]).mathematically_validate = .ok () ∧
    (Equation.new_from_symbols
        [Symbol.Three, Symbol.Plus, Symbol.EightVar1, Symbol.Equal,
         Symbol.Equal, Symbol.Two]).mathematically_validate = .error () := by
  refine ⟨?_, by decide, by decide⟩
  intro e
  have h := validate_check_iff ((splitOnEq e.to_plain_text).map eval_int)
  rw [show e.mathematically_validate
      = (if ((splitOnEq e.to_plain_text).map eval_int).length < 2 then
          (Except.error () : Except Unit Unit)
        else
          match ((splitOnEq e.to_plain_text).map eval_int).head? with
          | some (some v) =>
              if ((splitOnEq e.to_plain_text).map eval_int).all
                  (fun r => r = some v) then .ok () else .error ()
          | _ => .error ()) from rfl]
  rw [h, List.length_map]
  constructor
  · intro hc
    refine ⟨hc.1, ?_⟩
    obtain ⟨-, v, hall⟩ := hc
    exact ⟨v, fun piece hp => hall (eval_int piece) (List.mem_map_of_mem _ hp)⟩
  · intro hc
    refine ⟨hc.1, ?_⟩
    obtain ⟨-, v, hall⟩ := hc
    refine ⟨v, ?_⟩
    intro r hr
    obtain ⟨piece, hp, rfl⟩ := List.mem_map.1 hr
    exact hall piece hp

/-- C9: `fulfills_abstract_equation` is true iff at every position below
the overlap of equation and pattern the symbol belongs to the filter's
symbol set; positions beyond the overlap are never checked. -/
theorem fulfills_abstract_equation_spec (e : Equation) (p : EquationPattern) :
    e.fulfills_abstract_equation p = true ↔
      ∀ (i : Nat) (h : i < min e.symbols.length p.symbol_filters.length),
        ((p.symbol_filters.get ⟨i, by omega⟩).get_corresponding_symbols).contains
          (e.symbols.get ⟨i, by omega⟩) = true := by
  unfold Equation.fulfills_abstract_equation
  rw [List.all_eq_true]
  constructor
  · intro hall i hi
    have hz : i < (e.symbols.zip p.symbol_filters).length := by
      rw [List.length_zip]
      omega
    have hmem := List.getElem_mem hz
    have := hall ((e.symbols.zip p.symbol_filters)[i]) hmem
    rw [List.getElem_zip] at this
    simpa [List.get_eq_getElem] using this
  · intro hget x hx
    obtain ⟨i, hi, hx⟩ := List.mem_iff_getElem.1 hx
    have hi2 : i < min e.symbols.length p.symbol_filters.length := by
      rw [List.length_zip] at hi
      omega
    have := hget i hi2
    rw [← hx, List.getElem_zip]
    simpa [List.get_eq_getElem] using this

/-- Closed witness for C9: a two-symbol equation against a one-filter
pattern checks only the overlapping first position. -/
theorem fulfills_abstract_equation_spec_witness :
    (Equation.mk [Symbol.Three, Symbol.Plus]).fulfills_abstract_equation
      ⟨[SymbolFilter.IsNumber]⟩ = true :=
  (fulfills_abstract_equation_spec (Equation.mk [Symbol.Three, Symbol.Plus])
    ⟨[SymbolFilter.IsNumber]⟩).mpr (by decide)

/-- C7: `Riddle::solve` returns exactly the order- and
duplicate-preserving subsequence of the transformed equations that
validate mathematically. -/
theorem riddle_solve_spec (r : Riddle) :
    r.solve = SolutionWrapper.ProgrammaticallySet
      ⟨(r.riddle_equation.move_n_matchsticks
          r.number_matchstick_movements).filter
        (fun e => e.mathematically_validate = Except.ok ())⟩ ∧
    ((r.riddle_equation.move_n_matchsticks
        r.number_matchstick_movements).filter
      (fun e => e.mathematically_validate = Except.ok ())).Sublist
      (r.riddle_equation.move_n_matchsticks r.number_matchstick_movements) := by
  refine ⟨?_, List.filter_sublist _⟩
  have hcong : (r.riddle_equation.move_n_matchsticks
        r.number_matchstick_movements).filter Equation.validates
      = (r.riddle_equation.move_n_matchsticks
          r.number_matchstick_movements).filter
        (fun e => decide (e.mathematically_validate = Except.ok ())) := by
    apply List.filter_congr
    intro e _
    unfold Equation.validates
    cases h : e.mathematically_validate with
    | ok u => cases u; simp [h]
    | error u => cases u; simp [h]
  show SolutionWrapper.new_programmatically_set_solution
    ((r.riddle_equation.move_n_matchsticks
        r.number_matchstick_movements).filter Equation.validates) = _
  rw [hcong]
  rfl

/-- C3: the riddle with starting equation `7-3=4` and budget 1 is solved
by exactly one equation, `1+3=4`. -/
theorem seven_minus_three_riddle :
    (Puzzle.new_from_riddle (Riddle.new (Equation.new_from_symbols
        [Symbol.Seven, Symbol.Minus, Symbol.Three, Symbol.Equal,
         Symbol.FourVar1]) 1)).search_and_set_solution
      = (⟨Riddle.new (Equation.new_from_symbols
            [Symbol.Seven, Symbol.Minus, Symbol.Three, Symbol.Equal,
             Symbol.FourVar1]) 1,
          SolutionWrapper.ProgrammaticallySet ⟨[Equation.new_from_symbols
            [Symbol.OneVar1, Symbol.Plus, Symbol.Three, Symbol.Equal,
             Symbol.FourVar1]]⟩⟩, 1) := by
  decide

/-- Counterexample to C2 as stated: a puzzle whose solution state has
left `NotYetSet` (it is manually set) returns to `NotYetSet` after
`manually_set_solution` is passed the `NotYetSet` wrapper. -/
theorem return_to_unresolved_counterexample :
    SolutionWrapper.new_manually_set_solution [] ≠ SolutionWrapper.NotYetSet ∧
    (Puzzle.apply_ops
        ⟨Riddle.new (Equation.new_from_symbols []) 0,
          SolutionWrapper.new_manually_set_solution []⟩
        [PuzzleOp.manual SolutionWrapper.NotYetSet]).wrappped_solution
      = SolutionWrapper.NotYetSet := by
  exact ⟨by decide, rfl⟩

/-- C2 (amended): once a puzzle's solution state has left `NotYetSet`,
no sequence of `search_and_set_solution` and `manually_set_solution`
calls whose manual arguments are not the `NotYetSet` wrapper ever
returns it to `NotYetSet`. -/
theorem no_return_to_unresolved :
    ∀ (ops : List PuzzleOp) (p : Puzzle),
      p.wrappped_solution ≠ SolutionWrapper.NotYetSet →
      (∀ w, PuzzleOp.manual w ∈ ops → w ≠ SolutionWrapper.NotYetSet) →
      (p.apply_ops ops).wrappped_solution ≠ SolutionWrapper.NotYetSet := by
  intro ops
  induction ops with
  | nil => exact fun p hp _ => hp
  | cons op rest ih =>
    intro p hp hops
    have hstep : Puzzle.apply_ops p (op :: rest)
        = Puzzle.apply_ops (p.apply_op op) rest := rfl
    rw [hstep]
    apply ih
    · cases op with
      | search =>
        show ((p.search_and_set_solution).1).wrappped_solution ≠ _
        simp [Puzzle.search_and_set_solution, Riddle.solve,
          SolutionWrapper.new_programmatically_set_solution]
      | manual w =>
        have hw := hops w (List.mem_cons_self _ _)
        simpa [Puzzle.apply_op, Puzzle.manually_set_solution] using hw
    · intro w hw
      exact hops w (List.mem_cons_of_mem _ hw)

/-- Closed witness for the amended C2 on a manually set puzzle followed
by a search. -/
theorem no_return_to_unresolved_witness :
    (Puzzle.apply_ops
        ⟨Riddle.new (Equation.new_from_symbols [Symbol.Three]) 0,
          SolutionWrapper.new_manually_set_solution []⟩
        [PuzzleOp.search]).wrappped_solution ≠ SolutionWrapper.NotYetSet :=
  no_return_to_unresolved [PuzzleOp.search]
    ⟨Riddle.new (Equation.new_from_symbols [Symbol.Three]) 0,
      SolutionWrapper.new_manually_set_solution []⟩
    (by decide) (by intro w hw; simp at hw)

end Matchstick
